import Mathlib

/-!
Verification of the clox core (scanner / single-pass compiler / bytecode VM)
against its specification.  The Rust sources under `src/src/` are shallowly
embedded below: pure functions become Lean functions, in-place mutation
becomes explicit state passing, machine integers are `Nat` with explicit
`% 2 ^ 32` where wrapping matters, and every operation that can panic or
diverge in Rust returns `Option` (with `none` modelling the panic or the
non-terminating loop).
-/

namespace Clox

/-- Byte strings (the VM's string values, table keys, error messages) are
modelled as lists of byte values. -/
abbrev BStr := List Nat

/-- Bytes of an ASCII string literal (all literals appearing in the sources
are ASCII, where the UTF-8 encoding is the identity on code points). -/
def strBytes (s : String) : BStr := s.data.map Char.toNat

/-- `value.rs::hash`: FNV-1a, 32-bit.
`h = 2166136261; for b: h ^= b; h = h.wrapping_mul(16777619)`. -/
def hash (data : BStr) : Nat :=
  data.foldl (fun h b => ((h ^^^ b) * 16777619) % 4294967296) 2166136261

/-- `value.rs::Value`.  The IEEE-754 double payload is kept abstract as a
type parameter `F`; none of the verified claims depends on float
arithmetic, and witnesses instantiate `F` concretely. -/
inductive Value (F : Type) where
  | nil
  | bool (b : Bool)
  | number (x : F)
  | str (s : BStr)
deriving DecidableEq

/-- The derived `PartialEq` on `value.rs::Value` (used by
`Chunk::find_constant` through `==`).  `feq` is IEEE `==` on doubles;
`ThinString` equality is byte-wise string equality (the stored hash of
equal strings is equal). -/
def valueEq (feq : F → F → Bool) : Value F → Value F → Bool
  | Value.nil, Value.nil => true
  | Value.bool a, Value.bool b => a == b
  | Value.number a, Value.number b => feq a b
  | Value.str a, Value.str b => a == b
  | _, _ => false

/-- `value.rs::values_equal` (same shape as the derived `PartialEq`:
matching tags compare payloads, any cross-tag comparison is false). -/
def valuesEqual (feq : F → F → Bool) : Value F → Value F → Bool
  | Value.nil, Value.nil => true
  | Value.bool a, Value.bool b => a == b
  | Value.number a, Value.number b => feq a b
  | Value.str a, Value.str b => a == b
  | _, _ => false

/-- `vm.rs::is_falsey`. -/
def isFalsey : Value F → Bool
  | Value.nil => true
  | Value.bool false => true
  | _ => false

/-! ## Table (`table.rs`): open addressing, linear probing, tombstones -/

/-- `table.rs::Slot`. -/
inductive Slot (F : Type) where
  | vacant
  | tombstone
  | occupied (key : BStr) (value : Value F)
deriving DecidableEq

/-- `table.rs::Table`: boxed slice of slots plus `count`. -/
structure Table (F : Type) where
  entries : List (Slot F)
  count : Nat
deriving DecidableEq

def Table.capacity (t : Table F) : Nat := t.entries.length

/-- The probe loop shared by `Table::find` and `Table::find_mut`.
`i` is the current probe index, `tomb` the first tombstone index seen
(`tombstone.get_or_insert`).  The Rust loop is unbounded; it terminates
exactly when some slot in the cyclic probe order is vacant or holds the
key, which a fuel of `entries.length` reaches (the walk visits every slot
once within that many steps).  `none` models the diverging loop. -/
def probeLoop (key : BStr) (entries : List (Slot F)) :
    Nat → Nat → Option Nat → Option Nat
  | 0, _, _ => none
  | fuel + 1, i, tomb =>
    match entries.getD i Slot.vacant with
    | Slot.occupied k _ =>
      if k ≠ key then
        probeLoop key entries fuel ((i + 1) % entries.length) tomb
      else
        match tomb with
        | some t => some t
        | none => some i
    | Slot.tombstone =>
      probeLoop key entries fuel ((i + 1) % entries.length)
        (match tomb with
         | some t => some t
         | none => some i)
    | Slot.vacant =>
      match tomb with
      | some t => some t
      | none => some i

/-- `Table::find` / `Table::find_mut`: returns the index of the slot the
probe settles on.  `hash % capacity` panics in Rust when the capacity is
zero, modelled by the guard. -/
def Table.find? (t : Table F) (key : BStr) : Option Nat :=
  if t.capacity = 0 then none
  else probeLoop key t.entries t.capacity (hash key % t.capacity) none

/-- `Table::get`.  Outer `none` = panic/divergence; `some none` = key
absent; `some (some v)` = value found. -/
def Table.get (t : Table F) (key : BStr) : Option (Option (Value F)) :=
  if t.count = 0 then some none
  else
    match t.find? key with
    | none => none
    | some i =>
      match t.entries.getD i Slot.vacant with
      | Slot.occupied _ v => some (some v)
      | _ => some none

/-- `Table::get_mut`: same lookup as `Table::get` (the mutable borrow it
returns is modelled where it is used, in the VM's `SetGlobal`). -/
def Table.getMut (t : Table F) (key : BStr) : Option (Option (Value F)) :=
  if t.count = 0 then some none
  else
    match t.find? key with
    | none => none
    | some i =>
      match t.entries.getD i Slot.vacant with
      | Slot.occupied _ v => some (some v)
      | _ => some none

/-- The loop body of `Table::realloc`: walk the old entries; per occupied
entry, increment `count`, find its slot in the (partially filled) new
array and store it there. -/
def reallocFold : List (Slot F) → Table F → Option (Table F)
  | [], acc => some acc
  | Slot.occupied k v :: rest, acc =>
    let acc1 : Table F := { acc with count := acc.count + 1 }
    match acc1.find? k with
    | none => none
    | some i =>
      reallocFold rest { acc1 with entries := acc1.entries.set i (Slot.occupied k v) }
  | Slot.vacant :: rest, acc => reallocFold rest acc
  | Slot.tombstone :: rest, acc => reallocFold rest acc

/-- `Table::realloc`: reset `count` to 0, allocate `new_capacity` vacant
slots, re-insert every occupied entry of the old array. -/
def Table.realloc (t : Table F) (newCapacity : Nat) : Option (Table F) :=
  reallocFold t.entries { entries := List.replicate newCapacity Slot.vacant, count := 0 }

/-- `Table::set`.  Grows when `count * 4 >= capacity * 3` at entry
(capacity 8 when below 8, else doubled), then stores into the found slot;
`count` is incremented only for a new key that did not reuse a tombstone.
Returns whether the key was new. -/
def Table.set (t : Table F) (key : BStr) (value : Value F) :
    Option (Bool × Table F) :=
  let grown : Option (Table F) :=
    if t.count * 4 ≥ t.capacity * 3 then
      t.realloc (if t.capacity < 8 then 8 else t.capacity * 2)
    else some t
  match grown with
  | none => none
  | some t1 =>
    match t1.find? key with
    | none => none
    | some i =>
      let entry := t1.entries.getD i Slot.vacant
      let isNewKey : Bool :=
        match entry with
        | Slot.occupied _ _ => false
        | _ => true
      let wasTombstone : Bool :=
        match entry with
        | Slot.tombstone => true
        | _ => false
      let newCount := if isNewKey && !wasTombstone then t1.count + 1 else t1.count
      some (isNewKey, { entries := t1.entries.set i (Slot.occupied key value), count := newCount })

/-- `Table::delete`: replace the found occupied slot with a tombstone;
`count` is not decremented. -/
def Table.delete (t : Table F) (key : BStr) :
    Option (Option (Value F × Table F)) :=
  if t.count = 0 then some none
  else
    match t.find? key with
    | none => none
    | some i =>
      match t.entries.getD i Slot.vacant with
      | Slot.occupied _ v =>
        some (some (v, { t with entries := t.entries.set i Slot.tombstone }))
      | _ => some none

/-- The occupied `(key, value)` pairs of a slot array, in order. -/
def occupiedList : List (Slot F) → List (BStr × Value F)
  | [] => []
  | Slot.occupied k v :: rest => (k, v) :: occupiedList rest
  | Slot.vacant :: rest => occupiedList rest
  | Slot.tombstone :: rest => occupiedList rest

/-- `true` when the slot array holds no tombstone. -/
def tombstoneFree (l : List (Slot F)) : Bool :=
  l.all fun s =>
    match s with
    | Slot.tombstone => false
    | _ => true

/-! ## Compiler (`compiler.rs`): locals, constants, jump patching -/

/-- The `depth` sentinel between a local's declaration and the completion
of its initializer: `-1i8 as u8`. -/
def UNINITIALIZED : Nat := 255

/-- `compiler.rs::Local` (the name token is kept as its lexeme; the other
token fields play no role in resolution). -/
structure Local where
  name : BStr
  depth : Nat
deriving DecidableEq

/-- `Iterator::rposition`: index of the last element satisfying `p`. -/
def rposition (p : α → Bool) : List α → Option Nat
  | [] => none
  | x :: xs =>
    match rposition p xs with
    | some i => some (i + 1)
    | none => if p x then some 0 else none

/-- `Parser::resolve_local`.  Searches the locals for the newest
lexeme-equal name (`rposition`), converts the index to `u8` (the index is
at most 255 because `add_local` caps the list at 256 entries), and reports
"Can't read local variable in its own initializer." exactly when the
returned slot equals `Some(-1i8 as u8)`, i.e. `Some 255`.  The returned
`Bool` is whether the error was reported. -/
def resolveLocal (locals : List Local) (name : BStr) : Option Nat × Bool :=
  let slot := rposition (fun l => l.name == name) locals
  (slot, slot == some 255)

/-- `Parser::add_local`: errors ("Too many local variables in function.")
at 256 locals, otherwise pushes a local with the `UNINITIALIZED` depth.
The returned `Bool` is whether the error was reported. -/
def addLocal (locals : List Local) (name : BStr) : List Local × Bool :=
  if locals.length = 256 then (locals, true)
  else (locals ++ [{ name := name, depth := UNINITIALIZED }], false)

/-- `chunk.rs::Chunk`: parallel `code`/`lines` arrays and the constant
pool. -/
structure Chunk (F : Type) where
  code : List Nat
  lines : List Nat
  constants : List (Value F)
deriving DecidableEq

/-- `Chunk::write_byte`. -/
def Chunk.writeByte (c : Chunk F) (byte : Nat) (line : Nat) : Chunk F :=
  { c with code := c.code ++ [byte], lines := c.lines ++ [line] }

/-- `Chunk::find_constant`: first structurally equal constant. -/
def Chunk.findConstant (feq : F → F → Bool) (c : Chunk F) (v : Value F) :
    Option Nat :=
  c.constants.findIdx? fun x => valueEq feq x v

/-- `Chunk::add_constant`: append, return the index of the new constant. -/
def Chunk.addConstant (c : Chunk F) (v : Value F) : Nat × Chunk F :=
  (c.constants.length, { c with constants := c.constants ++ [v] })

/-- `Parser::make_constant`: dedup via `find_constant`; report "Too many
constants in one chunk." and return id 0 when `constants_len() == Id::MAX`
(`Id = u8`, so 255); otherwise append.  `none` models the `u8` conversion
panics inside `find_constant`/`constants_len` (unreachable while the pool
stays at most 255 long).  The returned `Bool` is whether the error was
reported. -/
def makeConstant (feq : F → F → Bool) (c : Chunk F) (v : Value F) :
    Option (Nat × Chunk F × Bool) :=
  match c.findConstant feq v with
  | some id => if id > 255 then none else some (id, c, false)
  | none =>
    if c.constants.length > 255 then none
    else if c.constants.length = 255 then some (0, c, true)
    else
      let (id, c1) := c.addConstant v
      some (id, c1, false)

/-- `Parser::emit_jump`: emit the jump instruction byte, remember the
current length as the operand position, emit the `0xFFFF` placeholder.
Returns the chunk and the operand position. -/
def emitJump (c : Chunk F) (instruction : Nat) (line : Nat) :
    Chunk F × Nat :=
  let c1 := c.writeByte instruction line
  let loc := c1.code.length
  (((c1.writeByte 255 line).writeByte 255 line), loc)

/-- `Parser::patch_jump`: store `len - offset - 2` as a little-endian
16-bit value at `offset` (the arithmetic is on `u16`, exact on `Nat` in
the reachable regime `offset + 2 ≤ len < 65536`). -/
def patchJump (c : Chunk F) (offset : Nat) : Chunk F :=
  let jump := c.code.length - offset - 2
  { c with code := (c.code.set offset (jump % 256)).set (offset + 1) (jump / 256) }

/-! ## VM (`vm.rs`) -/

/-- The float operations the dispatch loop uses, abstract over the
payload type `F` (IEEE doubles in the source). -/
structure FOps (F : Type) where
  fadd : F → F → F
  fsub : F → F → F
  fmul : F → F → F
  fdiv : F → F → F
  fgt : F → F → Bool
  flt : F → F → Bool
  feq : F → F → Bool
  fneg : F → F

/-- `chunk.rs::Opcode`, discriminants in declaration order. -/
inductive Opcode where
  | ret
  | constant
  | nil
  | true
  | false
  | pop
  | getLocal
  | getGlobal
  | defineGlobal
  | setLocal
  | setGlobal
  | equal
  | greater
  | less
  | add
  | subtract
  | multiply
  | divide
  | not
  | negate
  | print
  | jump
  | jumpIfFalse
  | loop
deriving DecidableEq

/-- `Opcode::as_u8`. -/
def Opcode.toByte : Opcode → Nat
  | .ret => 0
  | .constant => 1
  | .nil => 2
  | .true => 3
  | .false => 4
  | .pop => 5
  | .getLocal => 6
  | .getGlobal => 7
  | .defineGlobal => 8
  | .setLocal => 9
  | .setGlobal => 10
  | .equal => 11
  | .greater => 12
  | .less => 13
  | .add => 14
  | .subtract => 15
  | .multiply => 16
  | .divide => 17
  | .not => 18
  | .negate => 19
  | .print => 20
  | .jump => 21
  | .jumpIfFalse => 22
  | .loop => 23

/-- `Opcode::from_u8`. -/
def Opcode.ofByte : Nat → Option Opcode
  | 0 => some .ret
  | 1 => some .constant
  | 2 => some .nil
  | 3 => some .true
  | 4 => some .false
  | 5 => some .pop
  | 6 => some .getLocal
  | 7 => some .getGlobal
  | 8 => some .defineGlobal
  | 9 => some .setLocal
  | 10 => some .setGlobal
  | 11 => some .equal
  | 12 => some .greater
  | 13 => some .less
  | 14 => some .add
  | 15 => some .subtract
  | 16 => some .multiply
  | 17 => some .divide
  | 18 => some .not
  | 19 => some .negate
  | 20 => some .print
  | 21 => some .jump
  | 22 => some .jumpIfFalse
  | 23 => some .loop
  | _ => none

/-- `vm.rs::Stack`: a 256-slot storage array plus the top index.  The
storage length is part of the state (256 in every reachable state). -/
structure Stack (F : Type) where
  storage : List (Value F)
  top : Nat
deriving DecidableEq

/-- `Stack::push`: `storage[top] = v; top += 1` (out-of-bounds panic when
`top` reaches the storage length). -/
def Stack.push (s : Stack F) (v : Value F) : Option (Stack F) :=
  if s.top < s.storage.length then
    some { storage := s.storage.set s.top v, top := s.top + 1 }
  else none

/-- `Stack::pop`: `top -= 1` (underflow panic at 0), take
`storage[top]` replacing it with `Nil`. -/
def Stack.pop (s : Stack F) : Option (Value F × Stack F) :=
  if s.top = 0 then none
  else
    match s.storage.get? (s.top - 1) with
    | none => none
    | some v => some (v, { storage := s.storage.set (s.top - 1) Value.nil, top := s.top - 1 })

/-- `Stack::peek`: `storage[top - distance - 1]` (underflow panic when
`top ≤ distance`). -/
def Stack.peek? (s : Stack F) (distance : Nat) : Option (Value F) :=
  if distance + 1 ≤ s.top then s.storage.get? (s.top - distance - 1) else none

/-- `Stack::reset`: only the top index moves; the storage stays. -/
def Stack.reset (s : Stack F) : Stack F := { s with top := 0 }

/-- `vm.rs::Vm`. -/
structure Vm (F : Type) where
  chunk : Chunk F
  ip : Nat
  stack : Stack F
  globals : Table F
deriving DecidableEq

/-- Outcome of `Vm::interpret` / `Vm::run`.  `unknownOpcode` models the
`None` dispatch arm (prints and returns `Err(Error::Runtime)` without
calling `runtime_error`). -/
inductive VmResult where
  | ok
  | compileError
  | runtimeError (msg : BStr)
  | unknownOpcode (b : Nat)
deriving DecidableEq

/-- One dispatch iteration either continues the loop or halts with a
result. -/
inductive StepRes (F : Type) where
  | cont (vm : Vm F)
  | halt (r : VmResult) (vm : Vm F)
deriving DecidableEq

/-- `Vm::read_byte`: `chunk.code[ip]`, then `ip += 1` (`none` = index
panic). -/
def Vm.readByte (vm : Vm F) : Option (Nat × Vm F) :=
  match vm.chunk.code.get? vm.ip with
  | none => none
  | some b => some (b, { vm with ip := vm.ip + 1 })

/-- `Vm::runtime_error`: print the message and the line of `code[ip - 1]`
(`none` = line-map index panic), reset the stack, and the caller returns
`Err(Error::Runtime)`. -/
def Vm.withRuntimeError (vm : Vm F) (msg : BStr) : Option (StepRes F) :=
  match vm.chunk.lines.get? (vm.ip - 1) with
  | none => none
  | some _ => some (.halt (.runtimeError msg) { vm with stack := vm.stack.reset })

/-- `Vm::binary_op`: pop `b`, pop `a`; push `f a b` when both are
numbers, otherwise report "Operands must be numbers." and halt. -/
def Vm.binaryOp (vm : Vm F) (f : F → F → Value F) : Option (StepRes F) :=
  match vm.stack.pop with
  | none => none
  | some (b, s1) =>
    match s1.pop with
    | none => none
    | some (a, s2) =>
      match a, b with
      | Value.number x, Value.number y =>
        match s2.push (f x y) with
        | none => none
        | some s3 => some (.cont { vm with stack := s3 })
      | _, _ =>
        Vm.withRuntimeError { vm with stack := s2 } (strBytes "Operands must be numbers.")

/-- One iteration of `Vm::run`'s dispatch loop.  Arms appear in the
source's order.  `Vm::read_string` (used by the global opcodes) reads a
constant and panics (`unreachable!`) unless it is a string; both panics
are `none`.  The `Jump`, `JumpIfFalse` and `Loop` opcodes have no arm in
the source's `match` (the dispatch does not handle them), modelled as
`none`. -/
def step (ops : FOps F) (vm : Vm F) : Option (StepRes F) :=
  match vm.readByte with
  | none => none
  | some (instruction, vm) =>
    match Opcode.ofByte instruction with
    | some Opcode.constant =>
      match vm.readByte with
      | none => none
      | some (id, vm) =>
        match vm.chunk.constants.get? id with
        | none => none
        | some v =>
          match vm.stack.push v with
          | none => none
          | some s => some (.cont { vm with stack := s })
    | some Opcode.nil =>
      match vm.stack.push Value.nil with
      | none => none
      | some s => some (.cont { vm with stack := s })
    | some Opcode.true =>
      match vm.stack.push (Value.bool Bool.true) with
      | none => none
      | some s => some (.cont { vm with stack := s })
    | some Opcode.false =>
      match vm.stack.push (Value.bool Bool.false) with
      | none => none
      | some s => some (.cont { vm with stack := s })
    | some Opcode.pop =>
      match vm.stack.pop with
      | none => none
      | some (_, s) => some (.cont { vm with stack := s })
    | some Opcode.getLocal =>
      match vm.readByte with
      | none => none
      | some (slot, vm) =>
        match vm.stack.storage.get? slot with
        | none => none
        | some v =>
          match vm.stack.push v with
          | none => none
          | some s => some (.cont { vm with stack := s })
    | some Opcode.setLocal =>
      match vm.readByte with
      | none => none
      | some (slot, vm) =>
        match vm.stack.peek? 0 with
        | none => none
        | some v =>
          if slot < vm.stack.storage.length then
            some (.cont { vm with stack := { vm.stack with storage := vm.stack.storage.set slot v } })
          else none
    | some Opcode.getGlobal =>
      match vm.readByte with
      | none => none
      | some (id, vm) =>
        match vm.chunk.constants.get? id with
        | some (Value.str name) =>
          match vm.globals.get name with
          | none => none
          | some (some v) =>
            match vm.stack.push v with
            | none => none
            | some s => some (.cont { vm with stack := s })
          | some none =>
            vm.withRuntimeError
              (strBytes "Undefined variable '" ++ name ++ strBytes "'")
        | _ => none
    | some Opcode.defineGlobal =>
      match vm.readByte with
      | none => none
      | some (id, vm) =>
        match vm.chunk.constants.get? id with
        | some (Value.str name) =>
          match vm.stack.peek? 0 with
          | none => none
          | some v =>
            match vm.globals.set name v with
            | none => none
            | some (_, g) =>
              match vm.stack.pop with
              | none => none
              | some (_, s) => some (.cont { vm with stack := s, globals := g })
        | _ => none
    | some Opcode.setGlobal =>
      match vm.readByte with
      | none => none
      | some (id, vm) =>
        match vm.chunk.constants.get? id with
        | some (Value.str name) =>
          -- `if let Some(value) = self.globals.get_mut(&name)` inlined:
          -- `get_mut` is the count guard plus `find_mut`, and the write
          -- through the returned reference replaces the slot's value.
          if vm.globals.count = 0 then
            vm.withRuntimeError
              (strBytes "Undefined variable '" ++ name ++ strBytes "'")
          else
            match vm.globals.find? name with
            | none => none
            | some i =>
              match vm.globals.entries.getD i Slot.vacant with
              | Slot.occupied k _ =>
                match vm.stack.peek? 0 with
                | none => none
                | some v =>
                  some (.cont { vm with globals :=
                    { vm.globals with entries := vm.globals.entries.set i (Slot.occupied k v) } })
              | _ =>
                vm.withRuntimeError
                  (strBytes "Undefined variable '" ++ name ++ strBytes "'")
        | _ => none
    | some Opcode.equal =>
      match vm.stack.pop with
      | none => none
      | some (b, s1) =>
        match s1.pop with
        | none => none
        | some (a, s2) =>
          match s2.push (Value.bool (valuesEqual ops.feq a b)) with
          | none => none
          | some s3 => some (.cont { vm with stack := s3 })
    | some Opcode.greater =>
      vm.binaryOp fun a b => Value.bool (ops.fgt a b)
    | some Opcode.less =>
      vm.binaryOp fun a b => Value.bool (ops.flt a b)
    | some Opcode.add =>
      match vm.stack.pop with
      | none => none
      | some (b, s1) =>
        match s1.pop with
        | none => none
        | some (a, s2) =>
          match a, b with
          | Value.str x, Value.str y =>
            match s2.push (Value.str (x ++ y)) with
            | none => none
            | some s3 => some (.cont { vm with stack := s3 })
          | Value.number x, Value.number y =>
            match s2.push (Value.number (ops.fadd x y)) with
            | none => none
            | some s3 => some (.cont { vm with stack := s3 })
          | _, _ =>
            Vm.withRuntimeError { vm with stack := s2 }
              (strBytes "Operands must be numbers or strings.")
    | some Opcode.subtract =>
      vm.binaryOp fun a b => Value.number (ops.fsub a b)
    | some Opcode.multiply =>
      vm.binaryOp fun a b => Value.number (ops.fmul a b)
    | some Opcode.divide =>
      vm.binaryOp fun a b => Value.number (ops.fdiv a b)
    | some Opcode.negate =>
      match vm.stack.pop with
      | none => none
      | some (v, s1) =>
        match v with
        | Value.number n =>
          match s1.push (Value.number (ops.fneg n)) with
          | none => none
          | some s2 => some (.cont { vm with stack := s2 })
        | _ =>
          Vm.withRuntimeError { vm with stack := s1 }
            (strBytes "Operand must be a number.")
    | some Opcode.not =>
      match vm.stack.pop with
      | none => none
      | some (v, s1) =>
        match s1.push (Value.bool (isFalsey v)) with
        | none => none
        | some s2 => some (.cont { vm with stack := s2 })
    | some Opcode.print =>
      match vm.stack.pop with
      | none => none
      | some (_, s) => some (.cont { vm with stack := s })
    | some Opcode.ret => some (.halt .ok vm)
    | some Opcode.jump => none
    | some Opcode.jumpIfFalse => none
    | some Opcode.loop => none
    | none => some (.halt (.unknownOpcode instruction) vm)

/-- `Vm::run`: iterate `step` (fuel bounds the iteration count; `none`
models divergence as well as the panics propagated from `step`). -/
def run (ops : FOps F) : Nat → Vm F → Option (VmResult × Vm F)
  | 0, _ => none
  | fuel + 1, vm =>
    match step ops vm with
    | none => none
    | some (.halt r vm1) => some (r, vm1)
    | some (.cont vm1) => run ops fuel vm1

/-- The state mutations of `Vm::interpret` between a successful compile
and the dispatch loop: `self.chunk = chunk; self.ip = 0;` (lines 70-72 of
`vm.rs`; the stack and the globals are not touched). -/
def interpretSetup (vm : Vm F) (c : Chunk F) : Vm F :=
  { vm with chunk := c, ip := 0 }

/-- `Vm::interpret`.  Compilation writes into a fresh local chunk and its
outcome is passed as `compiled`: on failure the `?` operator returns
`Err(Error::Compile(...))` before any of the VM's fields are assigned. -/
def interpret (ops : FOps F) (vm : Vm F) (compiled : Except Unit (Chunk F))
    (fuel : Nat) : Option (VmResult × Vm F) :=
  match compiled with
  | Except.error _ => some (VmResult.compileError, vm)
  | Except.ok c => run ops fuel (interpretSetup vm c)

/-- Trivial float operations on `Unit`, used to instantiate the VM at
concrete states (no verified claim depends on the float payload). -/
def unitOps : FOps Unit where
  fadd := fun _ _ => ()
  fsub := fun _ _ => ()
  fmul := fun _ _ => ()
  fdiv := fun _ _ => ()
  fgt := fun _ _ => Bool.false
  flt := fun _ _ => Bool.false
  feq := fun _ _ => Bool.true
  fneg := fun _ => ()

/-- Run a list of `Table::set` calls in order (used to exhibit concrete
reachable table states). -/
def setList (t : Table F) : List (BStr × Value F) → Option (Table F)
  | [] => some t
  | (k, v) :: rest =>
    match t.set k v with
    | none => none
    | some (_, t1) => setList t1 rest

/-! # Theorems -/

/-- C8: the FNV-1a hash satisfies `hash("") = 2166136261` and
`hash("a") = 0xE40C292C = 3826002220` (the byte sequence of `"a"` is
`[97]`). -/
theorem C8_fnv1a_values :
    hash [] = 2166136261 ∧ strBytes "a" = [97] ∧
    hash (strBytes "a") = 3826002220 ∧ (0xE40C292C : Nat) = 3826002220 := by
  refine ⟨rfl, by decide, by decide, by decide⟩

set_option maxRecDepth 4000 in
/-- C1 (the code contradicts the claim; proved with raised
recursion depth for the 256-element literal): `Parser::resolve_local` compares
the resolved slot INDEX against `-1i8 as u8 = 255` instead of comparing
the matched local's recorded DEPTH against the `UNINITIALIZED` sentinel.
Consequently (first conjunct) a variable read inside its own initializer
— locals `[{name: "a", depth: UNINITIALIZED}]`, resolving `"a"`, exactly
the state reached while compiling `{ var a = a; }` — resolves to slot 0
with NO error reported, although the claim requires the error "Can't read
local variable in its own initializer."; and (second/third conjuncts) a
fully initialized local that happens to live at slot index 255 (the 256th
local) spuriously triggers the error. -/
theorem C1_resolve_local_checks_slot_not_depth :
    resolveLocal [{ name := strBytes "a", depth := UNINITIALIZED }] (strBytes "a")
      = (some 0, Bool.false)
    ∧ (List.replicate 255 { name := strBytes "b", depth := 1 }
        ++ [{ name := strBytes "a", depth := 1 }] : List Local).length = 256
    ∧ resolveLocal
        (List.replicate 255 { name := strBytes "b", depth := 1 }
          ++ [{ name := strBytes "a", depth := 1 }]) (strBytes "a")
      = (some 255, Bool.true) := by
  refine ⟨by decide, by decide, by decide⟩

/-- C9: when compilation fails, `interpret` returns the `Compile` error
and the VM state is returned exactly as it was (compilation wrote only
into its fresh local chunk; none of `chunk`, `ip`, `stack`, `globals` is
assigned before the `?` early return). -/
theorem C9_interpret_compile_error_preserves_state (ops : FOps F) (vm : Vm F)
    (e : Unit) (fuel : Nat) :
    interpret ops vm (Except.error e) fuel = some (VmResult.compileError, vm) := rfl

/-- C5 (amended): on a successful compilation `interpret` enters the
dispatch loop on a state whose chunk is the fresh chunk and whose
instruction pointer is 0, but the value-stack top is NOT reset: the stack
(and the globals) enter the loop exactly as they were. -/
theorem C5_interpret_setup (ops : FOps F) (vm : Vm F) (c : Chunk F) (fuel : Nat) :
    interpret ops vm (Except.ok c) fuel = run ops fuel (interpretSetup vm c)
    ∧ (interpretSetup vm c).chunk = c
    ∧ (interpretSetup vm c).ip = 0
    ∧ (interpretSetup vm c).stack = vm.stack
    ∧ (interpretSetup vm c).globals = vm.globals :=
  ⟨rfl, rfl, rfl, rfl, rfl⟩

set_option maxRecDepth 4000 in
/-- C5 counterexample: a VM whose stack top is 3 interprets the chunk
`[Return]` (a successful compilation); the run completes without the
`Return` arm touching the stack, and the final stack top is still 3 —
the stack top was not reset to 0 before the dispatch loop, contradicting
the claim. -/
theorem C5_counterexample :
    (interpretSetup
      ({ chunk := { code := [], lines := [], constants := [] }, ip := 7,
         stack := { storage := List.replicate 256 Value.nil, top := 3 },
         globals := { entries := [], count := 0 } } : Vm Unit)
      { code := [0], lines := [1], constants := [] }).stack.top = 3
    ∧ interpret unitOps
        ({ chunk := { code := [], lines := [], constants := [] }, ip := 7,
           stack := { storage := List.replicate 256 Value.nil, top := 3 },
           globals := { entries := [], count := 0 } } : Vm Unit)
        (Except.ok { code := [0], lines := [1], constants := [] }) 1
      = some (VmResult.ok,
          { chunk := { code := [0], lines := [1], constants := [] }, ip := 1,
            stack := { storage := List.replicate 256 Value.nil, top := 3 },
            globals := { entries := [], count := 0 } })
    ∧ (3 : Nat) ≠ 0 := by
  refine ⟨rfl, by decide, by decide⟩

/-- C2 (amended): `make_constant` reports "Too many constants in one
chunk." and returns id 0 exactly when the value is not already pooled and
the pool already holds 255 constants (`Id::MAX`, not 256); with fewer
than 255 constants, adding a new value appends it and returns its index. -/
theorem C2_make_constant_threshold (feq : F → F → Bool) (c : Chunk F)
    (v : Value F) (hlen : c.constants.length ≤ 255) :
    (makeConstant feq c v = some (0, c, Bool.true) ↔
      c.findConstant feq v = none ∧ c.constants.length = 255)
    ∧ (c.findConstant feq v = none → c.constants.length < 255 →
      makeConstant feq c v
        = some (c.constants.length, { c with constants := c.constants ++ [v] }, Bool.false)) := by
  constructor
  · constructor
    · intro h
      unfold makeConstant at h
      cases hf : c.findConstant feq v with
      | some id =>
        rw [hf] at h
        by_cases hid : id > 255
        · simp [hid] at h
        · simp [hid] at h
      | none =>
        rw [hf] at h
        have h255 : ¬ c.constants.length > 255 := by omega
        rw [if_neg h255] at h
        by_cases heq : c.constants.length = 255
        · exact ⟨rfl, heq⟩
        · rw [if_neg heq] at h
          simp [Chunk.addConstant] at h
    · rintro ⟨hf, heq⟩
      unfold makeConstant
      rw [hf]
      have h255 : ¬ c.constants.length > 255 := by omega
      rw [if_neg h255, if_pos heq]
  · intro hf hlt
    unfold makeConstant
    rw [hf]
    have h255 : ¬ c.constants.length > 255 := by omega
    have hne : ¬ c.constants.length = 255 := by omega
    rw [if_neg h255, if_neg hne]
    rfl

/-- Witness for C2: on a pool holding one constant, adding a fresh value
succeeds with index 1. -/
theorem C2_make_constant_threshold_witness :
    makeConstant (fun a b : Nat => a == b)
        ⟨[], [], [Value.number 0]⟩ (Value.number 1)
      = some (1, ⟨[], [], [Value.number 0, Value.number 1]⟩, Bool.false) := by
  have h := (C2_make_constant_threshold (fun a b : Nat => a == b)
    ⟨[], [], [Value.number 0]⟩ (Value.number 1)
    (by decide)).2 (by decide) (by decide)
  exact h

set_option maxRecDepth 8000 in
/-- C2 counterexample: a pool holding 255 distinct constants — fewer
than the 256 the claim allows — already fails: adding a fresh value
reports the error and returns 0 instead of succeeding. -/
theorem C2_counterexample :
    makeConstant (fun a b : Nat => a == b)
        ⟨[], [], (List.range 255).map Value.number⟩ (Value.number 999)
      = some (0, ⟨[], [], (List.range 255).map Value.number⟩, Bool.true)
    ∧ ((List.range 255).map (Value.number (F := Nat))).length < 256 := by
  refine ⟨by decide, by decide⟩

/-- C6: `emit_jump` returns the operand position `p` (the length right
after the instruction byte) and appends the two placeholder bytes
`0xFF 0xFF` at `p` and `p + 1`; `patch_jump` on a chunk of length `t`
stores the little-endian 16-bit value `t - p - 2` at the operand
position (hypotheses: the operand bytes exist, and the offset fits in 16
bits — the regime in which the source's `u16` arithmetic is exact). -/
theorem C6_jump_roundtrip (c : Chunk F) (instruction line : Nat)
    (d : Chunk F) (p : Nat)
    (hp : p + 2 ≤ d.code.length) (hsz : d.code.length - p - 2 < 65536) :
    (emitJump c instruction line).2 = c.code.length + 1
    ∧ (emitJump c instruction line).1.code = c.code ++ [instruction, 255, 255]
    ∧ (patchJump d p).code.getD p 0 + 256 * (patchJump d p).code.getD (p + 1) 0
        = d.code.length - p - 2 := by
  refine ⟨by simp [emitJump, Chunk.writeByte], by simp [emitJump, Chunk.writeByte], ?_⟩
  have hplt : p < d.code.length := by omega
  have hp1 : p + 1 < d.code.length := by omega
  unfold patchJump
  have h1 : ((d.code.set p ((d.code.length - p - 2) % 256)).set (p + 1)
      ((d.code.length - p - 2) / 256)).get? p
      = (d.code.set p ((d.code.length - p - 2) % 256)).get? p :=
    List.get?_set_ne _ _ (by omega)
  have h2 : (d.code.set p ((d.code.length - p - 2) % 256)).get? p
      = some ((d.code.length - p - 2) % 256) := by
    rw [List.get?_set_eq, List.get?_eq_get hplt]
    rfl
  have h3 : ((d.code.set p ((d.code.length - p - 2) % 256)).set (p + 1)
      ((d.code.length - p - 2) / 256)).get? (p + 1)
      = some ((d.code.length - p - 2) / 256) := by
    have hp1' : p + 1 < (d.code.set p ((d.code.length - p - 2) % 256)).length := by
      simpa using hp1
    rw [List.get?_set_eq, List.get?_eq_get hp1']
    rfl
  rw [List.getD_eq_getD_get?, List.getD_eq_getD_get?, h1, h2, h3]
  simp only [Option.getD_some]
  omega

/-- Witness for C6 at a concrete chunk: patching offset 1 in a chunk of
length 7 stores `7 - 1 - 2 = 4` little-endian. -/
theorem C6_jump_roundtrip_witness :
    (emitJump (⟨[5], [1], []⟩ : Chunk Unit) 22 1).2 = 2
    ∧ (emitJump (⟨[5], [1], []⟩ : Chunk Unit) 22 1).1.code = [5, 22, 255, 255]
    ∧ (patchJump (⟨[22, 255, 255, 2, 0, 2, 0], [1, 1, 1, 1, 1, 1, 1], []⟩ : Chunk Unit) 1).code.getD 1 0
        + 256 * (patchJump (⟨[22, 255, 255, 2, 0, 2, 0], [1, 1, 1, 1, 1, 1, 1], []⟩ : Chunk Unit) 1).code.getD 2 0
        = 4 := by
  have h := C6_jump_roundtrip (⟨[5], [1], []⟩ : Chunk Unit) 22 1
    (⟨[22, 255, 255, 2, 0, 2, 0], [1, 1, 1, 1, 1, 1, 1], []⟩ : Chunk Unit) 1
    (by decide) (by decide)
  exact ⟨h.1, h.2.1, h.2.2⟩

/-- Every index the probe loop returns is a valid index of the slot
array, provided the current index and every recorded tombstone index
are (the loop only ever forms indices reduced `% entries.length`). -/
theorem probeLoop_lt (key : BStr) (entries : List (Slot F)) (fuel : Nat) :
    ∀ (i : Nat) (tomb : Option Nat) (j : Nat),
      i < entries.length →
      (∀ x, tomb = some x → x < entries.length) →
      probeLoop key entries fuel i tomb = some j → j < entries.length := by
  induction fuel with
  | zero => intro i tomb j _ _ hp; simp [probeLoop] at hp
  | succ n ih =>
    intro i tomb j hi ht hp
    have hlen : 0 < entries.length := Nat.lt_of_le_of_lt (Nat.zero_le i) hi
    simp only [probeLoop] at hp
    split at hp
    · split at hp
      · exact ih _ _ _ (Nat.mod_lt _ hlen) ht hp
      · cases tomb with
        | some t => exact (Option.some.inj hp) ▸ ht t rfl
        | none => exact (Option.some.inj hp) ▸ hi
    · refine ih _ _ _ (Nat.mod_lt _ hlen) ?_ hp
      cases tomb with
      | some t =>
        intro x hx
        injection hx with hx
        exact hx ▸ ht t rfl
      | none =>
        intro x hx
        injection hx with hx
        exact hx ▸ hi
    · cases tomb with
      | some t => exact (Option.some.inj hp) ▸ ht t rfl
      | none => exact (Option.some.inj hp) ▸ hi

/-- C10: lookups on an empty table (`count == 0`) — in particular on a
default-constructed table of capacity 0 — return `None` before any probe
index is formed, so `hash % capacity` never divides by zero; and on a
table of nonzero capacity the initial probe index, every successor
index, and the index the probe settles on all lie strictly below the
capacity. -/
theorem C10_lookup_guard (t : Table F) (key : BStr) :
    (t.count = 0 → t.get key = some none ∧ t.getMut key = some none)
    ∧ (0 < t.capacity → hash key % t.capacity < t.capacity)
    ∧ (∀ i, i < t.capacity → (i + 1) % t.capacity < t.capacity)
    ∧ (∀ j, t.find? key = some j → j < t.capacity) := by
  refine ⟨?_, ?_, ?_, ?_⟩
  · intro h
    exact ⟨by simp [Table.get, h], by simp [Table.getMut, h]⟩
  · intro h
    exact Nat.mod_lt _ h
  · intro i hi
    exact Nat.mod_lt _ (Nat.lt_of_le_of_lt (Nat.zero_le i) hi)
  · intro j hj
    unfold Table.find? at hj
    split at hj
    · exact absurd hj (by simp)
    · rename_i hcap
      exact probeLoop_lt key t.entries t.capacity _ none j
        (Nat.mod_lt _ (Nat.pos_of_ne_zero hcap)) (by intro x hx; cases hx) hj

/-- Witness for C10 at the concrete table `⟨[Vacant], 0⟩` (count 0,
capacity 1) and key `"a"`. -/
theorem C10_lookup_guard_witness :
    ((⟨[Slot.vacant], 0⟩ : Table Unit).get (strBytes "a") = some none
      ∧ (⟨[Slot.vacant], 0⟩ : Table Unit).getMut (strBytes "a") = some none)
    ∧ hash (strBytes "a") % (⟨[Slot.vacant], 0⟩ : Table Unit).capacity
        < (⟨[Slot.vacant], 0⟩ : Table Unit).capacity
    ∧ (0 + 1) % (⟨[Slot.vacant], 0⟩ : Table Unit).capacity
        < (⟨[Slot.vacant], 0⟩ : Table Unit).capacity
    ∧ (0 : Nat) < (⟨[Slot.vacant], 0⟩ : Table Unit).capacity := by
  have h := C10_lookup_guard (⟨[Slot.vacant], 0⟩ : Table Unit) (strBytes "a")
  exact ⟨h.1 rfl, h.2.1 (by decide), h.2.2.1 0 (by decide),
    h.2.2.2 0 (by decide)⟩

theorem getD_set_ne (l : List α) (i j : Nat) (a d : α) (h : i ≠ j) :
    (l.set i a).getD j d = l.getD j d := by
  rw [List.getD_eq_getD_get?, List.get?_set_ne _ _ h, ← List.getD_eq_getD_get?]

theorem getD_set_self (l : List α) (i : Nat) (a d : α) (h : i < l.length) :
    (l.set i a).getD i d = a := by
  rw [List.getD_eq_getD_get?, List.get?_set_eq, List.get?_eq_get h]
  rfl

/-- Once a tombstone index is recorded, every return path of the probe
loop returns exactly that index (`get_or_insert` keeps the first). -/
theorem probeLoop_tomb_fixed (key : BStr) (entries : List (Slot F)) (fuel : Nat) :
    ∀ (i t j : Nat), probeLoop key entries fuel i (some t) = some j → j = t := by
  induction fuel with
  | zero => intro i t j hp; simp [probeLoop] at hp
  | succ n ih =>
    intro i t j hp
    simp only [probeLoop] at hp
    split at hp
    · split at hp
      · exact ih _ _ _ hp
      · exact (Option.some.inj hp).symm
    · exact ih _ _ _ hp
    · exact (Option.some.inj hp).symm

/-- If the probe (started with no tombstone recorded) settles on an
occupied slot, that slot's key is the probed key. -/
theorem probeLoop_ret_occupied (key : BStr) (entries : List (Slot F)) (fuel : Nat) :
    ∀ (i j : Nat) (k : BStr) (v : Value F),
      probeLoop key entries fuel i none = some j →
      entries.getD j Slot.vacant = Slot.occupied k v → k = key := by
  induction fuel with
  | zero => intro i j k v hp _; simp [probeLoop] at hp
  | succ n ih =>
    intro i j k v hp hslot
    simp only [probeLoop] at hp
    split at hp
    · rename_i k1 v1 heq
      split at hp
      · exact ih _ _ _ _ hp hslot
      · rename_i hk1
        have hij : j = i := (Option.some.inj hp).symm
        rw [hij, heq] at hslot
        cases hslot
        exact Decidable.not_not.mp hk1
    · rename_i heq
      have hji : j = i := probeLoop_tomb_fixed key entries n _ _ _ hp
      rw [hji, heq] at hslot
      cases hslot
    · rename_i heq
      have hji : j = i := (Option.some.inj hp).symm
      rw [hji, heq] at hslot
      cases hslot

/-- Overwriting the value of the occupied slot the probe settles on does
not move the probe: the walk to that slot is unchanged (no tombstone was
recorded on it, and every earlier slot is untouched). -/
theorem probeLoop_set_stable (key : BStr) (entries : List (Slot F))
    (j : Nat) (v w : Value F)
    (hslot : entries.getD j Slot.vacant = Slot.occupied key v) (fuel : Nat) :
    ∀ (i : Nat), i < entries.length →
      probeLoop key entries fuel i none = some j →
      probeLoop key (entries.set j (Slot.occupied key w)) fuel i none = some j := by
  induction fuel with
  | zero => intro i _ hp; simp [probeLoop] at hp
  | succ n ih =>
    intro i hi hp
    have hjlen : j < entries.length :=
      probeLoop_lt key entries (n + 1) i none j hi (by intro x hx; cases hx) hp
    simp only [probeLoop] at hp
    split at hp
    · rename_i k1 v1 heq
      split at hp
      · rename_i hk1
        have hij : i ≠ j := by
          intro h
          rw [h, hslot] at heq
          cases heq
          exact hk1 rfl
        have hgd : (entries.set j (Slot.occupied key w)).getD i Slot.vacant
            = Slot.occupied k1 v1 := by
          rw [getD_set_ne _ _ _ _ _ (fun h => hij h.symm)]
          exact heq
        simp only [probeLoop, hgd, List.length_set]
        rw [if_pos hk1]
        exact ih _ (Nat.mod_lt _ (Nat.lt_of_le_of_lt (Nat.zero_le i) hi)) hp
      · rename_i hk1
        have hij : j = i := (Option.some.inj hp).symm
        subst hij
        have hgd : (entries.set j (Slot.occupied key w)).getD j Slot.vacant
            = Slot.occupied key w := getD_set_self _ _ _ _ hjlen
        simp only [probeLoop, hgd, List.length_set]
        rw [if_neg (by simp)]
    · rename_i heq
      have h := probeLoop_tomb_fixed key entries n _ _ _ hp
      rw [h, heq] at hslot
      cases hslot
    · rename_i heq
      have hji : j = i := (Option.some.inj hp).symm
      rw [hji, heq] at hslot
      cases hslot

/-- `find` settling on an occupied slot implies the slot's key is the
probed key. -/
theorem Table.find?_occupied_key (t : Table F) (key : BStr) (i : Nat)
    (k : BStr) (v : Value F) (hf : t.find? key = some i)
    (hslot : t.entries.getD i Slot.vacant = Slot.occupied k v) : k = key := by
  unfold Table.find? at hf
  split at hf
  · exact absurd hf (by simp)
  · exact probeLoop_ret_occupied key t.entries t.capacity _ _ _ _ hf hslot

/-- Assigning through the reference `find_mut` returned (same key, new
value) leaves the probe for that key settling on the same slot. -/
theorem Table.find?_assign_stable (t : Table F) (key : BStr) (i : Nat)
    (v w : Value F) (hf : t.find? key = some i)
    (hslot : t.entries.getD i Slot.vacant = Slot.occupied key v) :
    (Table.mk (t.entries.set i (Slot.occupied key w)) t.count).find? key = some i := by
  unfold Table.find? at hf ⊢
  split at hf
  · exact absurd hf (by simp)
  · rename_i hcap
    have hcap' : ¬ (Table.mk (t.entries.set i (Slot.occupied key w)) t.count).capacity = 0 := by
      simpa [Table.capacity] using hcap
    rw [if_neg hcap']
    have hlen : (Table.mk (t.entries.set i (Slot.occupied key w)) t.count).capacity
        = t.capacity := by simp [Table.capacity]
    rw [hlen]
    exact probeLoop_set_stable key t.entries i v w hslot t.capacity _
      (Nat.mod_lt _ (Nat.pos_of_ne_zero hcap)) hf

/-- The index `find` settles on is a valid index of the slot array. -/
theorem Table.find?_lt (t : Table F) (key : BStr) (j : Nat)
    (hf : t.find? key = some j) : j < t.entries.length := by
  unfold Table.find? at hf
  split at hf
  · exact absurd hf (by simp)
  · rename_i hcap
    exact probeLoop_lt key t.entries t.capacity _ none j
      (Nat.mod_lt _ (Nat.pos_of_ne_zero hcap)) (by intro x hx; cases hx) hf

/-- Unpacks `Table::get` returning `None`: either the count guard fired,
or the probe settled on a non-occupied slot. -/
theorem Table.get_none_cases (t : Table F) (key : BStr)
    (h : t.get key = some none) :
    t.count = 0 ∨ (¬ t.count = 0 ∧ ∃ i, t.find? key = some i ∧
      ∀ k v, t.entries.getD i Slot.vacant ≠ Slot.occupied k v) := by
  unfold Table.get at h
  split at h
  · left; assumption
  · right
    rename_i hc
    refine ⟨hc, ?_⟩
    cases hf : t.find? key with
    | none => rw [hf] at h; simp at h
    | some i =>
      simp only [hf] at h
      refine ⟨i, rfl, ?_⟩
      intro k v hocc
      rw [hocc] at h
      simp at h

/-- Unpacks `Table::get` returning a value: the probe settled on an
occupied slot holding that value. -/
theorem Table.get_some_elim (t : Table F) (key : BStr) (v0 : Value F)
    (h : t.get key = some (some v0)) :
    ¬ t.count = 0 ∧ ∃ i k, t.find? key = some i ∧
      t.entries.getD i Slot.vacant = Slot.occupied k v0 := by
  unfold Table.get at h
  split at h
  · simp at h
  · rename_i hc
    refine ⟨hc, ?_⟩
    cases hf : t.find? key with
    | none => rw [hf] at h; simp at h
    | some i =>
      simp only [hf] at h
      cases hslot : t.entries.getD i Slot.vacant with
      | vacant => rw [hslot] at h; simp at h
      | tombstone => rw [hslot] at h; simp at h
      | occupied k v =>
        rw [hslot] at h
        have hv : v = v0 := by
          injection h with h1
          injection h1
        exact ⟨i, k, rfl, hv ▸ hslot⟩

/-- `from_u8` inverts `as_u8`. -/
theorem Opcode.ofByte_toByte (op : Opcode) :
    Opcode.ofByte op.toByte = some op := by
  cases op <;> rfl

/-- C7: with the operand naming a string constant `name`:
`GetGlobal` on a name absent from the globals table reports
"Undefined variable '<name>'" and halts with a `Runtime` error;
`SetGlobal` on an absent name reports the same message and halts with
the globals left exactly as they were (no implicit creation — the halted
state carries `vm.globals`); `SetGlobal` on a present name overwrites
its value with the top of the stack and leaves the stack (hence the
assigned value) in place. -/
theorem C7_global_access (ops : FOps F) (vm : Vm F) (cid : Nat) (name : BStr)
    (hconst : vm.chunk.code.get? (vm.ip + 1) = some cid)
    (hname : vm.chunk.constants.get? cid = some (Value.str name))
    (hline : ∃ L, vm.chunk.lines.get? (vm.ip + 1) = some L) :
    (vm.chunk.code.get? vm.ip = some Opcode.getGlobal.toByte →
      vm.globals.get name = some none →
      step ops vm = some (StepRes.halt
        (VmResult.runtimeError (strBytes "Undefined variable '" ++ name ++ strBytes "'"))
        { vm with ip := vm.ip + 2, stack := vm.stack.reset }))
    ∧ (vm.chunk.code.get? vm.ip = some Opcode.setGlobal.toByte →
      vm.globals.get name = some none →
      step ops vm = some (StepRes.halt
        (VmResult.runtimeError (strBytes "Undefined variable '" ++ name ++ strBytes "'"))
        { vm with ip := vm.ip + 2, stack := vm.stack.reset }))
    ∧ (∀ v0 w, vm.chunk.code.get? vm.ip = some Opcode.setGlobal.toByte →
      vm.globals.get name = some (some v0) →
      vm.stack.peek? 0 = some w →
      ∃ t', step ops vm = some (StepRes.cont { vm with ip := vm.ip + 2, globals := t' })
        ∧ t'.get name = some (some w)) := by
  obtain ⟨L, hL⟩ := hline
  have hL' : vm.chunk.lines.get? (vm.ip + 1 + 1 - 1) = some L := by
    simpa using hL
  refine ⟨?_, ?_, ?_⟩
  · intro hcode hget
    simp only [step, Vm.readByte, hcode, Opcode.ofByte_toByte, hconst, hname,
      hget, Vm.withRuntimeError, hL']
  · intro hcode hget
    rcases Table.get_none_cases vm.globals name hget with hc0 | ⟨hc0, i, hf, hslot⟩
    · simp only [step, Vm.readByte, hcode, Opcode.ofByte_toByte, hconst, hname,
        if_pos hc0, Vm.withRuntimeError, hL']
    · cases hs : vm.globals.entries.getD i Slot.vacant with
      | vacant =>
        simp only [step, Vm.readByte, hcode, Opcode.ofByte_toByte, hconst, hname,
          if_neg hc0, hf, hs, Vm.withRuntimeError, hL']
      | tombstone =>
        simp only [step, Vm.readByte, hcode, Opcode.ofByte_toByte, hconst, hname,
          if_neg hc0, hf, hs, Vm.withRuntimeError, hL']
      | occupied k v => exact absurd hs (hslot k v)
  · intro v0 w hcode hget hpeek
    obtain ⟨hc0, i, k, hf, hslot⟩ := Table.get_some_elim vm.globals name v0 hget
    have hk : k = name := Table.find?_occupied_key vm.globals name i k v0 hf hslot
    subst hk
    refine ⟨Table.mk (vm.globals.entries.set i (Slot.occupied k w)) vm.globals.count, ?_, ?_⟩
    · simp only [step, Vm.readByte, hcode, Opcode.ofByte_toByte, hconst, hname,
        if_neg hc0, hf, hslot, hpeek]
    · have hfind : (Table.mk (vm.globals.entries.set i (Slot.occupied k w))
          vm.globals.count).find? k = some i :=
        Table.find?_assign_stable vm.globals k i v0 w hf hslot
      have hilt : i < vm.globals.entries.length := Table.find?_lt vm.globals k i hf
      unfold Table.get
      rw [if_neg hc0]
      simp only [hfind]
      rw [getD_set_self _ _ _ _ hilt]

/-- Witness for C7 at concrete states: `GetGlobal "x"` and `SetGlobal
"x"` on an empty globals table halt with the undefined-variable error;
`SetGlobal "x"` on a table holding `x ↦ Nil` overwrites the binding with
the stack top `true` and continues. -/
theorem C7_global_access_witness :
    step unitOps
      { chunk := ⟨[7, 0], [1, 1], [Value.str (strBytes "x")]⟩, ip := 0,
        stack := ⟨[Value.nil], 0⟩, globals := ⟨[], 0⟩ }
      = some (StepRes.halt
          (VmResult.runtimeError (strBytes "Undefined variable '" ++ strBytes "x" ++ strBytes "'"))
          { chunk := ⟨[7, 0], [1, 1], [Value.str (strBytes "x")]⟩, ip := 2,
            stack := ⟨[Value.nil], 0⟩, globals := ⟨[], 0⟩ })
    ∧ step unitOps
      { chunk := ⟨[10, 0], [1, 1], [Value.str (strBytes "x")]⟩, ip := 0,
        stack := ⟨[Value.nil], 0⟩, globals := ⟨[], 0⟩ }
      = some (StepRes.halt
          (VmResult.runtimeError (strBytes "Undefined variable '" ++ strBytes "x" ++ strBytes "'"))
          { chunk := ⟨[10, 0], [1, 1], [Value.str (strBytes "x")]⟩, ip := 2,
            stack := ⟨[Value.nil], 0⟩, globals := ⟨[], 0⟩ })
    ∧ step unitOps
      { chunk := ⟨[10, 0], [1, 1], [Value.str (strBytes "x")]⟩, ip := 0,
        stack := ⟨[Value.bool Bool.true], 1⟩,
        globals := ⟨[Slot.occupied (strBytes "x") Value.nil], 1⟩ }
      = some (StepRes.cont
          { chunk := ⟨[10, 0], [1, 1], [Value.str (strBytes "x")]⟩, ip := 2,
            stack := ⟨[Value.bool Bool.true], 1⟩,
            globals := ⟨[Slot.occupied (strBytes "x") (Value.bool Bool.true)], 1⟩ })
    ∧ (⟨[Slot.occupied (strBytes "x") (Value.bool Bool.true)], 1⟩ : Table Unit).get
        (strBytes "x") = some (some (Value.bool Bool.true)) := by
  have hg := C7_global_access unitOps
    { chunk := ⟨[7, 0], [1, 1], [Value.str (strBytes "x")]⟩, ip := 0,
      stack := ⟨[Value.nil], 0⟩, globals := ⟨[], 0⟩ }
    0 (strBytes "x") (by decide) (by decide) ⟨1, by decide⟩
  have hs := C7_global_access unitOps
    { chunk := ⟨[10, 0], [1, 1], [Value.str (strBytes "x")]⟩, ip := 0,
      stack := ⟨[Value.nil], 0⟩, globals := ⟨[], 0⟩ }
    0 (strBytes "x") (by decide) (by decide) ⟨1, by decide⟩
  have hs2 := C7_global_access unitOps
    { chunk := ⟨[10, 0], [1, 1], [Value.str (strBytes "x")]⟩, ip := 0,
      stack := ⟨[Value.bool Bool.true], 1⟩,
      globals := ⟨[Slot.occupied (strBytes "x") Value.nil], 1⟩ }
    0 (strBytes "x") (by decide) (by decide) ⟨1, by decide⟩
  obtain ⟨t', h31, h32⟩ := hs2.2.2 Value.nil (Value.bool Bool.true)
    (by decide) (by decide) (by decide)
  have hd : step unitOps
      { chunk := ⟨[10, 0], [1, 1], [Value.str (strBytes "x")]⟩, ip := 0,
        stack := ⟨[Value.bool Bool.true], 1⟩,
        globals := ⟨[Slot.occupied (strBytes "x") Value.nil], 1⟩ }
      = some (StepRes.cont
          { chunk := ⟨[10, 0], [1, 1], [Value.str (strBytes "x")]⟩, ip := 2,
            stack := ⟨[Value.bool Bool.true], 1⟩,
            globals := ⟨[Slot.occupied (strBytes "x") (Value.bool Bool.true)], 1⟩ }) := by
    decide
  have he := h31.symm.trans hd
  injection he with he1
  injection he1 with he2
  have ht : t' = ⟨[Slot.occupied (strBytes "x") (Value.bool Bool.true)], 1⟩ :=
    congrArg Vm.globals he2
  exact ⟨hg.1 (by decide) (by decide), hs.2.1 (by decide) (by decide), hd, ht ▸ h32⟩

/-- A successful `Stack::pop` keeps the storage length, decrements the
top, and witnesses that the old top was positive and within bounds. -/
theorem Stack.pop_facts (s : Stack F) (v : Value F) (s' : Stack F)
    (h : s.pop = some (v, s')) :
    s'.storage.length = s.storage.length ∧ s'.top = s.top - 1
      ∧ 1 ≤ s.top ∧ s.top ≤ s.storage.length := by
  unfold Stack.pop at h
  split at h
  · cases h
  · rename_i h0
    cases hget : s.storage.get? (s.top - 1) with
    | none => rw [hget] at h; cases h
    | some w =>
      rw [hget] at h
      injection h with h1
      cases h1
      obtain ⟨hlt, -⟩ := List.get?_eq_some.mp hget
      refine ⟨List.length_set _ _ _, rfl, ?_, ?_⟩ <;> omega

/-- C4 counterexample: `Add` on two `Nil` operands reports
"Operands must be numbers or strings." — not the
"Operands must be numbers." the claim requires for every arithmetic
opcode. -/
theorem C4_counterexample :
    step unitOps
      { chunk := ⟨[14], [1], []⟩, ip := 0,
        stack := ⟨[Value.nil, Value.nil], 2⟩, globals := ⟨[], 0⟩ }
      = some (StepRes.halt
          (VmResult.runtimeError (strBytes "Operands must be numbers or strings."))
          { chunk := ⟨[14], [1], []⟩, ip := 1,
            stack := ⟨[Value.nil, Value.nil], 0⟩, globals := ⟨[], 0⟩ })
    ∧ strBytes "Operands must be numbers or strings."
        ≠ strBytes "Operands must be numbers." := by
  refine ⟨by decide, by decide⟩

/-- C4 (amended): `Subtract`, `Multiply`, `Divide`, `Greater` and `Less`
on popped operands that are not both numbers report
"Operands must be numbers." and halt with a `Runtime` error (the stack is
reset); `Add` on operands that are neither both numbers nor both strings
reports "Operands must be numbers or strings." and halts likewise; `Add`
on two strings pushes their concatenation and continues. -/
theorem C4_operand_type_errors (ops : FOps F) (vm : Vm F)
    (b a : Value F) (s1 s2 : Stack F)
    (hb : vm.stack.pop = some (b, s1)) (ha : s1.pop = some (a, s2))
    (hline : ∃ L, vm.chunk.lines.get? vm.ip = some L) :
    (∀ op : Opcode,
      (op = Opcode.subtract ∨ op = Opcode.multiply ∨ op = Opcode.divide
        ∨ op = Opcode.greater ∨ op = Opcode.less) →
      vm.chunk.code.get? vm.ip = some op.toByte →
      (∀ x y : F, ¬ (a = Value.number x ∧ b = Value.number y)) →
      step ops vm = some (StepRes.halt
        (VmResult.runtimeError (strBytes "Operands must be numbers."))
        { vm with ip := vm.ip + 1, stack := { storage := s2.storage, top := 0 } }))
    ∧ (vm.chunk.code.get? vm.ip = some Opcode.add.toByte →
      (∀ x y : F, ¬ (a = Value.number x ∧ b = Value.number y)) →
      (∀ x y : BStr, ¬ (a = Value.str x ∧ b = Value.str y)) →
      step ops vm = some (StepRes.halt
        (VmResult.runtimeError (strBytes "Operands must be numbers or strings."))
        { vm with ip := vm.ip + 1, stack := { storage := s2.storage, top := 0 } }))
    ∧ (∀ x y : BStr, a = Value.str x → b = Value.str y →
      vm.chunk.code.get? vm.ip = some Opcode.add.toByte →
      ∃ s3, s2.push (Value.str (x ++ y)) = some s3
        ∧ step ops vm = some (StepRes.cont { vm with ip := vm.ip + 1, stack := s3 })) := by
  obtain ⟨L, hL⟩ := hline
  have hL' : vm.chunk.lines.get? (vm.ip + 1 - 1) = some L := by simpa using hL
  refine ⟨?_, ?_, ?_⟩
  · intro op hop hcode hnn
    have hgoal : ∀ f : F → F → Value F,
        Vm.binaryOp { vm with ip := vm.ip + 1 } f
          = some (StepRes.halt
              (VmResult.runtimeError (strBytes "Operands must be numbers."))
              { vm with ip := vm.ip + 1, stack := { storage := s2.storage, top := 0 } }) := by
      intro f
      unfold Vm.binaryOp
      simp only [hb, ha]
      cases a <;> cases b <;>
        first
        | exact absurd ⟨rfl, rfl⟩ (hnn _ _)
        | simp only [Vm.withRuntimeError, hL', Stack.reset]
    rcases hop with rfl | rfl | rfl | rfl | rfl <;>
      · simp only [step, Vm.readByte, hcode, Opcode.ofByte_toByte]
        exact hgoal _
  · intro hcode hnn hns
    simp only [step, Vm.readByte, hcode, Opcode.ofByte_toByte, hb, ha]
    cases a <;> cases b <;>
      first
      | exact absurd ⟨rfl, rfl⟩ (hnn _ _)
      | exact absurd ⟨rfl, rfl⟩ (hns _ _)
      | simp only [Vm.withRuntimeError, hL', Stack.reset]
  · intro x y hax hby hcode
    subst hax
    subst hby
    obtain ⟨hb1, hb2, hb3, hb4⟩ := Stack.pop_facts vm.stack _ _ hb
    obtain ⟨ha1, ha2, ha3, ha4⟩ := Stack.pop_facts s1 _ _ ha
    have hroom : s2.top < s2.storage.length := by omega
    refine ⟨{ storage := s2.storage.set s2.top (Value.str (x ++ y)), top := s2.top + 1 }, ?_, ?_⟩
    · unfold Stack.push
      rw [if_pos hroom]
    · simp only [step, Vm.readByte, hcode, Opcode.ofByte_toByte, hb, ha,
        Stack.push, if_pos hroom]

/-- Witness for C4 at concrete states: `Subtract` on two nils errors with
"Operands must be numbers.", `Add` on two nils errors with "Operands must
be numbers or strings.", and `Add` on `"a"` and `"b"` pushes `"ab"`. -/
theorem C4_operand_type_errors_witness :
    step unitOps
      { chunk := ⟨[15], [1], []⟩, ip := 0,
        stack := ⟨[Value.nil, Value.nil], 2⟩, globals := ⟨[], 0⟩ }
      = some (StepRes.halt
          (VmResult.runtimeError (strBytes "Operands must be numbers."))
          { chunk := ⟨[15], [1], []⟩, ip := 1,
            stack := ⟨[Value.nil, Value.nil], 0⟩, globals := ⟨[], 0⟩ })
    ∧ step unitOps
      { chunk := ⟨[14], [1], []⟩, ip := 0,
        stack := ⟨[Value.nil, Value.nil], 2⟩, globals := ⟨[], 0⟩ }
      = some (StepRes.halt
          (VmResult.runtimeError (strBytes "Operands must be numbers or strings."))
          { chunk := ⟨[14], [1], []⟩, ip := 1,
            stack := ⟨[Value.nil, Value.nil], 0⟩, globals := ⟨[], 0⟩ })
    ∧ step unitOps
      { chunk := ⟨[14], [1], []⟩, ip := 0,
        stack := ⟨[Value.str (strBytes "a"), Value.str (strBytes "b")], 2⟩,
        globals := ⟨[], 0⟩ }
      = some (StepRes.cont
          { chunk := ⟨[14], [1], []⟩, ip := 1,
            stack := ⟨[Value.str (strBytes "ab"), Value.nil], 1⟩,
            globals := ⟨[], 0⟩ }) := by
  have h1 := (C4_operand_type_errors unitOps
    { chunk := ⟨[15], [1], []⟩, ip := 0,
      stack := ⟨[Value.nil, Value.nil], 2⟩, globals := ⟨[], 0⟩ }
    Value.nil Value.nil ⟨[Value.nil, Value.nil], 1⟩ ⟨[Value.nil, Value.nil], 0⟩
    (by decide) (by decide) ⟨1, by decide⟩).1 Opcode.subtract (Or.inl rfl)
    (by decide) (fun x y h => Value.noConfusion h.1)
  have h2 := (C4_operand_type_errors unitOps
    { chunk := ⟨[14], [1], []⟩, ip := 0,
      stack := ⟨[Value.nil, Value.nil], 2⟩, globals := ⟨[], 0⟩ }
    Value.nil Value.nil ⟨[Value.nil, Value.nil], 1⟩ ⟨[Value.nil, Value.nil], 0⟩
    (by decide) (by decide) ⟨1, by decide⟩).2.1
    (by decide) (fun x y h => Value.noConfusion h.1) (fun x y h => Value.noConfusion h.1)
  obtain ⟨s3, hpush, hstep⟩ := (C4_operand_type_errors unitOps
    { chunk := ⟨[14], [1], []⟩, ip := 0,
      stack := ⟨[Value.str (strBytes "a"), Value.str (strBytes "b")], 2⟩,
      globals := ⟨[], 0⟩ }
    (Value.str (strBytes "b")) (Value.str (strBytes "a"))
    ⟨[Value.str (strBytes "a"), Value.nil], 1⟩ ⟨[Value.nil, Value.nil], 0⟩
    (by decide) (by decide) ⟨1, by decide⟩).2.2
    (strBytes "a") (strBytes "b") rfl rfl (by decide)
  have hd : step unitOps
      { chunk := ⟨[14], [1], []⟩, ip := 0,
        stack := ⟨[Value.str (strBytes "a"), Value.str (strBytes "b")], 2⟩,
        globals := ⟨[], 0⟩ }
      = some (StepRes.cont
          { chunk := ⟨[14], [1], []⟩, ip := 1,
            stack := ⟨[Value.str (strBytes "ab"), Value.nil], 1⟩,
            globals := ⟨[], 0⟩ }) := by decide
  exact ⟨h1, h2, hd⟩

theorem occupiedList_replicate_vacant (n : Nat) :
    occupiedList (List.replicate n (Slot.vacant : Slot F)) = [] := by
  induction n with
  | zero => rfl
  | succ m ih => simpa [List.replicate, occupiedList] using ih

theorem tombstoneFree_replicate_vacant (n : Nat) :
    tombstoneFree (List.replicate n (Slot.vacant : Slot F)) = true := by
  induction n with
  | zero => rfl
  | succ m ih => simpa [List.replicate, tombstoneFree] using ih

/-- A getD hit on an occupied slot puts its pair in the occupied list. -/
theorem mem_occupiedList_of_getD (l : List (Slot F)) (j : Nat) (k : BStr)
    (v : Value F) (h : l.getD j Slot.vacant = Slot.occupied k v) :
    (k, v) ∈ occupiedList l := by
  induction l generalizing j with
  | nil => cases h
  | cons s rest ih =>
    cases j with
    | zero =>
      cases s with
      | vacant => cases h
      | tombstone => cases h
      | occupied k0 v0 =>
        cases h
        exact List.mem_cons_self _ _
    | succ m =>
      have h' : rest.getD m Slot.vacant = Slot.occupied k v := h
      cases s with
      | vacant => exact ih m h'
      | tombstone => exact ih m h'
      | occupied k0 v0 => exact List.mem_cons_of_mem _ (ih m h')

/-- A tombstone-free array has no getD hit on a tombstone. -/
theorem tombstoneFree_getD (l : List (Slot F)) (j : Nat)
    (htf : tombstoneFree l = true) : l.getD j Slot.vacant ≠ Slot.tombstone := by
  induction l generalizing j with
  | nil => intro h; cases h
  | cons s rest ih =>
    have hall := List.all_eq_true.mp htf
    cases j with
    | zero =>
      intro h
      have hs : s = Slot.tombstone := h
      subst hs
      have := hall Slot.tombstone (List.mem_cons_self _ _)
      exact Bool.noConfusion this
    | succ m =>
      refine ih m (List.all_eq_true.mpr ?_)
      intro x hx
      exact hall x (List.mem_cons_of_mem _ hx)

/-- On a tombstone-free array, probing for a key that occupies no slot
settles on a vacant slot. -/
theorem Table.find?_fresh_vacant (t : Table F) (key : BStr) (i : Nat)
    (htf : tombstoneFree t.entries = true)
    (hfresh : ∀ w, (key, w) ∉ occupiedList t.entries)
    (hf : t.find? key = some i) :
    t.entries.getD i Slot.vacant = Slot.vacant := by
  cases hslot : t.entries.getD i Slot.vacant with
  | vacant => rfl
  | tombstone => exact absurd hslot (tombstoneFree_getD t.entries i htf)
  | occupied k w =>
    have hk : k = key := Table.find?_occupied_key t key i k w hf hslot
    subst hk
    exact absurd (mem_occupiedList_of_getD t.entries i k w hslot) (hfresh w)

/-- Storing an occupied slot over a vacant one prepends its pair to the
occupied list (up to permutation) and keeps the array tombstone-free. -/
theorem occupiedList_set_vacant (l : List (Slot F)) (j : Nat) (k : BStr)
    (v : Value F) (hvac : l.getD j Slot.vacant = Slot.vacant)
    (hj : j < l.length) :
    (occupiedList (l.set j (Slot.occupied k v))).Perm ((k, v) :: occupiedList l) := by
  induction l generalizing j with
  | nil => cases hj
  | cons s rest ih =>
    cases j with
    | zero =>
      have hs : s = Slot.vacant := hvac
      subst hs
      simp only [List.set]
      exact List.Perm.refl _
    | succ m =>
      have hm : m < rest.length := Nat.lt_of_succ_lt_succ hj
      have hvac' : rest.getD m Slot.vacant = Slot.vacant := hvac
      have hperm := ih m hvac' hm
      cases s with
      | vacant => simpa [List.set, occupiedList] using hperm
      | tombstone => simpa [List.set, occupiedList] using hperm
      | occupied k0 v0 =>
        simp only [List.set, occupiedList]
        exact (hperm.cons (k0, v0)).trans (List.Perm.swap _ _ _)

theorem tombstoneFree_set_occupied (l : List (Slot F)) (j : Nat) (k : BStr)
    (v : Value F) (htf : tombstoneFree l = true) :
    tombstoneFree (l.set j (Slot.occupied k v)) = true := by
  induction l generalizing j with
  | nil => exact htf
  | cons s rest ih =>
    have hall := List.all_eq_true.mp htf
    have htl : tombstoneFree rest = true := by
      refine List.all_eq_true.mpr ?_
      intro x hx
      exact hall x (List.mem_cons_of_mem _ hx)
    cases j with
    | zero =>
      refine List.all_eq_true.mpr ?_
      intro x hx
      rcases List.mem_cons.mp hx with rfl | hx'
      · rfl
      · exact hall x (List.mem_cons_of_mem _ hx')
    | succ m =>
      refine List.all_eq_true.mpr ?_
      intro x hx
      rcases List.mem_cons.mp hx with rfl | hx'
      · exact hall x (List.mem_cons_self _ _)
      · exact List.all_eq_true.mp (ih m htl) x hx'

/-- The realloc loop preserves the length of the new array. -/
theorem reallocFold_length (l : List (Slot F)) :
    ∀ (acc t' : Table F), reallocFold l acc = some t' →
      t'.entries.length = acc.entries.length := by
  induction l with
  | nil =>
    intro acc t' h
    injection h with h
    rw [← h]
  | cons s rest ih =>
    intro acc t' h
    cases s with
    | vacant => exact ih acc t' h
    | tombstone => exact ih acc t' h
    | occupied k v =>
      unfold reallocFold at h
      cases hf : (Table.mk acc.entries (acc.count + 1)).find? k with
      | none =>
        simp only [hf] at h
        cases h
      | some i =>
        simp only [hf] at h
        have := ih _ _ h
        simpa using this

/-- Invariant of the realloc loop: starting from a tombstone-free
accumulator whose occupied keys together with the still-unprocessed
occupied keys are distinct, a successful fold yields a tombstone-free
array holding (up to permutation) the processed occupied entries on top
of the accumulator's, a count raised by the number of processed occupied
entries, and an unchanged capacity. -/
theorem reallocFold_spec (l : List (Slot F)) :
    ∀ (acc t' : Table F),
      tombstoneFree acc.entries = true →
      ((occupiedList acc.entries).map Prod.fst
        ++ (occupiedList l).map Prod.fst).Nodup →
      reallocFold l acc = some t' →
      (occupiedList t'.entries).Perm (occupiedList l ++ occupiedList acc.entries)
      ∧ tombstoneFree t'.entries = true
      ∧ t'.count = acc.count + (occupiedList l).length
      ∧ t'.entries.length = acc.entries.length := by
  induction l with
  | nil =>
    intro acc t' htf _ h
    injection h with h
    subst h
    exact ⟨by simp [occupiedList], htf, by simp [occupiedList], rfl⟩
  | cons s rest ih =>
    intro acc t' htf hnd h
    cases s with
    | vacant => exact ih acc t' htf hnd h
    | tombstone => exact ih acc t' htf hnd h
    | occupied k v =>
      unfold reallocFold at h
      cases hf : (Table.mk acc.entries (acc.count + 1)).find? k with
      | none =>
        simp only [hf] at h
        cases h
      | some i =>
        simp only [hf] at h
        have hnd1 : ((occupiedList acc.entries).map Prod.fst
            ++ (k :: (occupiedList rest).map Prod.fst)).Nodup := hnd
        obtain ⟨-, -, hdisj⟩ := List.nodup_append.mp hnd1
        have hknotacc : k ∉ (occupiedList acc.entries).map Prod.fst :=
          fun hk => hdisj hk (List.mem_cons_self _ _)
        have hfresh : ∀ w, (k, w) ∉ occupiedList acc.entries := by
          intro w hw
          exact hknotacc (List.mem_map_of_mem Prod.fst hw)
        have hvac : acc.entries.getD i Slot.vacant = Slot.vacant :=
          Table.find?_fresh_vacant (Table.mk acc.entries (acc.count + 1)) k i
            htf hfresh hf
        have hilt : i < acc.entries.length :=
          Table.find?_lt (Table.mk acc.entries (acc.count + 1)) k i hf
        have hperm1 := occupiedList_set_vacant acc.entries i k v hvac hilt
        have htf2 := tombstoneFree_set_occupied acc.entries i k v htf
        have hkperm : ((occupiedList (acc.entries.set i (Slot.occupied k v))).map
            Prod.fst).Perm (k :: (occupiedList acc.entries).map Prod.fst) :=
          hperm1.map Prod.fst
        have hnd2 : ((occupiedList (acc.entries.set i (Slot.occupied k v))).map
            Prod.fst ++ (occupiedList rest).map Prod.fst).Nodup := by
          refine List.Perm.nodup ?_ hnd1
          exact List.perm_middle.trans
            (hkperm.symm.append_right ((occupiedList rest).map Prod.fst))
        obtain ⟨hA, hB, hC, hD⟩ :=
          ih (Table.mk (acc.entries.set i (Slot.occupied k v)) (acc.count + 1))
            t' htf2 hnd2 h
        refine ⟨?_, hB, ?_, ?_⟩
        · exact hA.trans
            ((List.Perm.append_left (occupiedList rest) hperm1).trans
              List.perm_middle)
        · rw [hC]
          simp only [occupiedList, List.length_cons]
          omega
        · simpa using hD

/-- `Table::realloc`, under the table invariant that occupied keys are
distinct: the new array holds exactly the old occupied entries (up to
permutation), drops every tombstone, recomputes `count` as the number of
occupied entries, and has the requested capacity. -/
theorem Table.realloc_spec (t : Table F) (newCap : Nat) (t' : Table F)
    (hnd : ((occupiedList t.entries).map Prod.fst).Nodup)
    (h : t.realloc newCap = some t') :
    (occupiedList t'.entries).Perm (occupiedList t.entries)
    ∧ tombstoneFree t'.entries = true
    ∧ t'.count = (occupiedList t.entries).length
    ∧ t'.capacity = newCap := by
  unfold Table.realloc at h
  have h0 : occupiedList (List.replicate newCap (Slot.vacant : Slot F)) = [] :=
    occupiedList_replicate_vacant newCap
  obtain ⟨hA, hB, hC, hD⟩ := reallocFold_spec t.entries
    (Table.mk (List.replicate newCap Slot.vacant) 0) t'
    (tombstoneFree_replicate_vacant newCap) (by simpa [h0] using hnd) h
  refine ⟨?_, hB, ?_, ?_⟩
  · simpa [h0] using hA
  · simpa using hC
  · simpa [Table.capacity] using hD

/-- C3 (amended): `Table::set` grows the backing array if and only if
`4·count ≥ 3·capacity` holds at entry (not `4·(count+1) ≥ 3·capacity`):
without the condition the capacity is unchanged, with it the array grows
to 8 when the capacity was below 8 and to double otherwise; growth
(`realloc`, under the table invariant of pairwise-distinct occupied
keys) rehashes exactly the occupied entries into the fresh array, drops
all tombstones, and recomputes `count` as the number of occupied
entries. -/
theorem C3_table_set_growth (t : Table F) (key : BStr) (v : Value F) :
    (¬ t.count * 4 ≥ t.capacity * 3 →
      ∀ b t', t.set key v = some (b, t') → t'.capacity = t.capacity)
    ∧ (t.count * 4 ≥ t.capacity * 3 →
      ∀ b t', t.set key v = some (b, t') →
        t'.capacity = (if t.capacity < 8 then 8 else t.capacity * 2)
        ∧ t.capacity < t'.capacity)
    ∧ (∀ newCap t', ((occupiedList t.entries).map Prod.fst).Nodup →
      t.realloc newCap = some t' →
      (occupiedList t'.entries).Perm (occupiedList t.entries)
      ∧ tombstoneFree t'.entries = true
      ∧ t'.count = (occupiedList t.entries).length
      ∧ t'.capacity = newCap) := by
  refine ⟨?_, ?_, ?_⟩
  · intro hng b t' h
    simp only [Table.set, if_neg hng] at h
    cases hf : t.find? key with
    | none => simp only [hf] at h; cases h
    | some i =>
      simp only [hf] at h
      injection h with h1
      have ht' := congrArg Prod.snd h1
      simp only at ht'
      rw [← ht']
      simp [Table.capacity]
  · intro hge b t' h
    simp only [Table.set, if_pos hge] at h
    cases hre : t.realloc (if t.capacity < 8 then 8 else t.capacity * 2) with
    | none => simp only [hre] at h; cases h
    | some t1 =>
      simp only [hre] at h
      cases hf : t1.find? key with
      | none => simp only [hf] at h; cases h
      | some i =>
        simp only [hf] at h
        injection h with h1
        have ht' := congrArg Prod.snd h1
        simp only at ht'
        have hlen : t1.entries.length = (if t.capacity < 8 then 8 else t.capacity * 2) := by
          unfold Table.realloc at hre
          have := reallocFold_length t.entries _ t1 hre
          simpa using this
        have hcap : t'.capacity = (if t.capacity < 8 then 8 else t.capacity * 2) := by
          rw [← ht']
          simp [Table.capacity, hlen]
        refine ⟨hcap, ?_⟩
        rw [hcap]
        by_cases h8 : t.capacity < 8
        · rw [if_pos h8]; omega
        · rw [if_neg h8]; omega
  · intro newCap t' hnd h
    exact Table.realloc_spec t newCap t' hnd h

/-- C3 counterexample: starting from a default table, five `set` calls
with distinct keys reach count 5, capacity 8.  There `4·(count+1) = 24 ≥
24 = 3·capacity`, so the claim requires the sixth `set` to grow the
array — but the code's condition `4·count = 20 ≥ 24` is false and the
sixth `set` leaves the capacity at 8. -/
theorem C3_counterexample :
    setList (⟨[], 0⟩ : Table Unit)
      [(strBytes "a", Value.nil), (strBytes "b", Value.nil),
        (strBytes "c", Value.nil), (strBytes "d", Value.nil),
        (strBytes "e", Value.nil)]
      = some ⟨[Slot.occupied (strBytes "e") Value.nil, Slot.vacant,
          Slot.occupied (strBytes "c") Value.nil,
          Slot.occupied (strBytes "d") Value.nil,
          Slot.occupied (strBytes "a") Value.nil,
          Slot.occupied (strBytes "b") Value.nil, Slot.vacant, Slot.vacant], 5⟩
    ∧ 4 * (5 + 1) ≥ 3 * 8
    ∧ (⟨[Slot.occupied (strBytes "e") Value.nil, Slot.vacant,
          Slot.occupied (strBytes "c") Value.nil,
          Slot.occupied (strBytes "d") Value.nil,
          Slot.occupied (strBytes "a") Value.nil,
          Slot.occupied (strBytes "b") Value.nil, Slot.vacant, Slot.vacant], 5⟩
        : Table Unit).set (strBytes "f") Value.nil
      = some (Bool.true,
          ⟨[Slot.occupied (strBytes "e") Value.nil,
            Slot.occupied (strBytes "f") Value.nil,
            Slot.occupied (strBytes "c") Value.nil,
            Slot.occupied (strBytes "d") Value.nil,
            Slot.occupied (strBytes "a") Value.nil,
            Slot.occupied (strBytes "b") Value.nil, Slot.vacant, Slot.vacant], 6⟩)
    ∧ (⟨[Slot.occupied (strBytes "e") Value.nil,
          Slot.occupied (strBytes "f") Value.nil,
          Slot.occupied (strBytes "c") Value.nil,
          Slot.occupied (strBytes "d") Value.nil,
          Slot.occupied (strBytes "a") Value.nil,
          Slot.occupied (strBytes "b") Value.nil, Slot.vacant, Slot.vacant], 6⟩
        : Table Unit).capacity = 8 := by
  refine ⟨by decide, by decide, by decide, by decide⟩

/-- Witness for C3: the non-growing sixth `set` of the counterexample
state keeps capacity 8; a `set` on the default table grows to capacity
8; `realloc 4` of `[Occupied "a", Tombstone]` keeps exactly the occupied
entry, is tombstone-free, and recomputes `count = 1`. -/
theorem C3_table_set_growth_witness :
    (⟨[Slot.occupied (strBytes "e") Value.nil,
        Slot.occupied (strBytes "f") Value.nil,
        Slot.occupied (strBytes "c") Value.nil,
        Slot.occupied (strBytes "d") Value.nil,
        Slot.occupied (strBytes "a") Value.nil,
        Slot.occupied (strBytes "b") Value.nil, Slot.vacant, Slot.vacant], 6⟩
      : Table Unit).capacity
      = (⟨[Slot.occupied (strBytes "e") Value.nil, Slot.vacant,
          Slot.occupied (strBytes "c") Value.nil,
          Slot.occupied (strBytes "d") Value.nil,
          Slot.occupied (strBytes "a") Value.nil,
          Slot.occupied (strBytes "b") Value.nil, Slot.vacant, Slot.vacant], 5⟩
        : Table Unit).capacity
    ∧ (⟨[Slot.vacant, Slot.vacant, Slot.vacant, Slot.vacant,
        Slot.occupied (strBytes "a") Value.nil, Slot.vacant, Slot.vacant,
        Slot.vacant], 1⟩ : Table Unit).capacity = 8
    ∧ (occupiedList ([Slot.occupied (strBytes "a") Value.nil, Slot.vacant,
        Slot.vacant, Slot.vacant] : List (Slot Unit))).Perm
        (occupiedList ([Slot.occupied (strBytes "a") Value.nil,
          Slot.tombstone] : List (Slot Unit)))
    ∧ tombstoneFree ([Slot.occupied (strBytes "a") Value.nil, Slot.vacant,
        Slot.vacant, Slot.vacant] : List (Slot Unit)) = true
    ∧ (1 : Nat) = (occupiedList ([Slot.occupied (strBytes "a") Value.nil,
        Slot.tombstone] : List (Slot Unit))).length := by
  have h1 := (C3_table_set_growth
    (⟨[Slot.occupied (strBytes "e") Value.nil, Slot.vacant,
        Slot.occupied (strBytes "c") Value.nil,
        Slot.occupied (strBytes "d") Value.nil,
        Slot.occupied (strBytes "a") Value.nil,
        Slot.occupied (strBytes "b") Value.nil, Slot.vacant, Slot.vacant], 5⟩
      : Table Unit) (strBytes "f") Value.nil).1 (by decide) Bool.true
    ⟨[Slot.occupied (strBytes "e") Value.nil,
      Slot.occupied (strBytes "f") Value.nil,
      Slot.occupied (strBytes "c") Value.nil,
      Slot.occupied (strBytes "d") Value.nil,
      Slot.occupied (strBytes "a") Value.nil,
      Slot.occupied (strBytes "b") Value.nil, Slot.vacant, Slot.vacant], 6⟩
    (by decide)
  have h2 := (C3_table_set_growth (⟨[], 0⟩ : Table Unit) (strBytes "a")
    Value.nil).2.1 (by decide) Bool.true
    ⟨[Slot.vacant, Slot.vacant, Slot.vacant, Slot.vacant,
      Slot.occupied (strBytes "a") Value.nil, Slot.vacant, Slot.vacant,
      Slot.vacant], 1⟩ (by decide)
  have h3 := (C3_table_set_growth
    (⟨[Slot.occupied (strBytes "a") Value.nil, Slot.tombstone], 1⟩
      : Table Unit) (strBytes "a") Value.nil).2.2 4
    ⟨[Slot.occupied (strBytes "a") Value.nil, Slot.vacant, Slot.vacant,
      Slot.vacant], 1⟩ (by decide) (by decide)
  exact ⟨h1, h2.1, h3.1, h3.2.1, h3.2.2.1⟩

end Clox
